import Mathlib

/-!
Verification of `MaxPhaseCorrelationOptimizer<...>::ComputeOffset`
(itkMaxPhaseCorrelationOptimizer.hxx) against its natural-language
specification.

The C++ code is shallowly embedded: grid indices are integer vectors
(`Fin N → ℤ`), pixel values and geometric scalars are rationals (ℚ) for
the algebraic stages, and reals (ℝ) where the code evaluates
transcendental functions (`std::exp`, `std::log`).  Unsigned machine
integers that stay small and in range are modelled by ℕ/ℤ.  Line numbers
refer to itkMaxPhaseCorrelationOptimizer.hxx.
-/

namespace ITKMontage

/-- Grid index of an N-dimensional image (`ImageType::IndexType`). -/
abbrev Idx (N : ℕ) := Fin N → ℤ

/-- An N-dimensional scalar image, as a total function on indices
(`ImageType` restricted to the whole region). -/
abbrev Image (N : ℕ) := Idx N → ℚ

/-! ## Requested number of maxima (lines 216–225)

`m_MaxCalculator->SetN(std::ceil(this->m_Offsets.size() / 2) *
(static_cast<unsigned>(std::pow(3, ImageDimension)) - 1))` when
`m_MergePeaks` is nonzero, else `SetN(this->m_Offsets.size())`.
`this->m_Offsets.size() / 2` is integer (size_t) division, so the
subsequent `std::ceil` is the identity on its already-integral argument. -/

/-- Number of maxima requested from the peak extractor, as computed by the
code: `mergePeaks` is `m_MergePeaks`, `n` is `m_Offsets.size()`
(the requested offset count), `dim` is `ImageDimension`. -/
def requestedMaxima (mergePeaks n dim : ℕ) : ℕ :=
  if 0 < mergePeaks then (n / 2) * (3 ^ dim - 1) else n

/-! ## Bias field constructor (lines 95–160) -/

/-- C++ double→integer conversion (truncation toward zero), used when the
double expression for an expected index is assigned to the integer
`IndexValueType`. -/
def truncQ (q : ℚ) : ℤ := if 0 ≤ q then ⌊q⌋ else ⌈q⌉

/-- `adjustedSize[d] = size[d] + oIndex[d]` (line 101). -/
def adjustedSizeAxis (size : ℕ) (oIndex : ℤ) : ℤ := size + oIndex

/-- `imageSize2 += adjustedSize[d] * adjustedSize[d]` (line 102). -/
def imageSize2 {N : ℕ} (adjSize : Fin N → ℤ) : ℤ := ∑ d, adjSize d * adjSize d

/-- `directExpectedIndex[d] = (movingOrigin[d] - fixedOrigin[d]) / spacing[d] + oIndex[d]`
(line 103), with the double result truncated on assignment. -/
def directExpectedIndexAxis (movingOrigin fixedOrigin spacing : ℚ) (oIndex : ℤ) : ℤ :=
  truncQ ((movingOrigin - fixedOrigin) / spacing + oIndex)

/-- `mirrorExpectedIndex[d] = (movingOrigin[d] - fixedOrigin[d]) / spacing[d] + adjustedSize[d]`
(line 104), with the double result truncated on assignment. -/
def mirrorExpectedIndexAxis (movingOrigin fixedOrigin spacing : ℚ) (adjSize : ℤ) : ℤ :=
  truncQ ((movingOrigin - fixedOrigin) / spacing + adjSize)

/-- Per-axis contribution to the sample's squared distance (lines 131–140):
the smaller of the squared distances to the direct and to the mirror
expected index on this axis. -/
def biasDist2Axis (direct mirror ind : ℤ) : ℤ :=
  let distDirect := (direct - ind) * (direct - ind)
  let distMirror := (mirror - ind) * (mirror - ind)
  if distDirect ≤ distMirror then distDirect else distMirror

/-- The sample's squared distance `dist` (lines 128–141): the sum over axes
of the per-axis minimum `biasDist2Axis`. -/
def biasDist2 {N : ℕ} (direct mirror ind : Idx N) : ℤ :=
  ∑ d, biasDist2Axis (direct d) (mirror d) (ind d)

/-- Formalisation of the specification's wording for the same quantity,
kept only for comparison with `biasDist2`: the spec calls `d²` "the
minimum, over axes, of the squared index distance … to the closer of the
direct/mirror expected indices". -/
def biasDist2SpecMin {N : ℕ} (direct mirror ind : Idx (N + 1)) : ℤ :=
  Finset.univ.inf' Finset.univ_nonempty fun d => biasDist2Axis (direct d) (mirror d) (ind d)

/-- `zeroDist2 = 100 * m_PixelDistanceTolerance * m_PixelDistanceTolerance`
(lines 123–124), the squared-distance threshold beyond which samples are
rounded down to zero. -/
def zeroDist2 (tol : ℕ) : ℤ := 100 * (tol : ℤ) * (tol : ℤ)

/-- `distancePenaltyFactor` (lines 107–115): `-10 / imageSize2` when the
pixel-distance tolerance is 0, else `log(0.9) / tolerance²`. -/
noncomputable def distancePenaltyFactor (tol : ℕ) (is2 : ℤ) : ℝ :=
  if tol = 0 then -10 / (is2 : ℝ) else Real.log (9 / 10) / ((tol : ℝ) * (tol : ℝ))

/-- One output sample of the bias stage (lines 143–157, release semantics):
hard zero when `m_PixelDistanceTolerance > 0 && dist > zeroDist2`,
otherwise the input pixel times `exp(distancePenaltyFactor * dist)`. -/
noncomputable def biasSample (tol : ℕ) (f pixel : ℝ) (dist2 : ℤ) : ℝ :=
  if 0 < tol ∧ zeroDist2 tol < dist2 then 0 else pixel * Real.exp (f * (dist2 : ℝ))

/-- The whole bias stage: builds the adjusted surface sample-by-sample from
the input surface and the precomputed expected indices. -/
noncomputable def biasStage {N : ℕ} (tol : ℕ) (f : ℝ) (direct mirror : Idx N)
    (input : Idx N → ℝ) : Idx N → ℝ :=
  fun ind => biasSample tol f (input ind) (biasDist2 direct mirror ind)

/-! ## Zero-shift suppressor (lines 164–211) -/

/-- Per-axis wraparound distance to the zero index (lines 179–183):
`distD = ind[d] - oIndex[d]`, replaced by `size[d] - distD` when it
exceeds `size[d]/2` (integer division). -/
def wrapCB (size : ℕ) (distD : ℤ) : ℤ :=
  if ((size / 2 : ℕ) : ℤ) < distD then (size : ℤ) - distD else distD

/-- City-block distance to the zero index with wraparound (lines 176–185). -/
def cityBlockZeroDist {N : ℕ} (size : Fin N → ℕ) (oIndex ind : Idx N) : ℤ :=
  ∑ d, wrapCB (size d) (ind d - oIndex d)

/-- The pixel-update condition (lines 187–200): within the zero
neighborhood (`dist < znSize` with `znSize = 4`) or on an axis-aligned
line/sheet through the zero index. -/
def zeroPixelValid {N : ℕ} (size : Fin N → ℕ) (oIndex ind : Idx N) : Prop :=
  cityBlockZeroDist size oIndex ind < 4 ∨ ∃ d, ind d = oIndex d

instance {N : ℕ} (size : Fin N → ℕ) (oIndex ind : Idx N) :
    Decidable (zeroPixelValid size oIndex ind) := by
  unfold zeroPixelValid; infer_instance

/-- One sample of the suppression stage (lines 202–208):
`pixel *= (dist + 10) / (m_ZeroSuppression + dist + 10)` when the pixel is
valid for update, unchanged otherwise. -/
def zeroSuppressSample (a pixel : ℚ) (dist : ℤ) (valid : Bool) : ℚ :=
  if valid then pixel * (((dist : ℚ) + 10) / (a + (dist : ℚ) + 10)) else pixel

/-- The whole zero-shift suppression stage; skipped entirely unless
`m_ZeroSuppression > 0` (line 164). -/
def zeroSuppressStage {N : ℕ} (a : ℚ) (size : Fin N → ℕ) (oIndex : Idx N)
    (img : Image N) : Image N :=
  if 0 < a then
    fun ind =>
      zeroSuppressSample a (img ind) (cityBlockZeroDist size oIndex ind)
        (decide (zeroPixelValid size oIndex ind))
  else img

/-! ## Candidate selection, merging, re-sorting and truncation (lines 237–319)

The extractor returns parallel lists of confidences (descending) and
indices.  `std::upper_bound(begin, end, 0.0, std::greater)` on the
descending confidence list locates the first strictly negative element;
when one exists both lists are resized to its position (lines 241–248). -/

/-- The confidence cut (lines 241–248): both lists resized at the position
of the first strictly negative confidence, unchanged when none exists. -/
def zeroCut {N : ℕ} (confs : List ℚ) (inds : List (Idx N)) : List ℚ × List (Idx N) :=
  let i := confs.findIdx fun c => decide (c < 0)
  if i < confs.length then (confs.take i, inds.take i) else (confs, inds)

/-- Per-axis merge distance (lines 262–266): absolute index difference,
wrapped to `size[d] - d1` when it exceeds `size[d]/2`. -/
def chebAxis (size : ℕ) (x y : ℤ) : ℕ :=
  let d1 := (x - y).natAbs
  if size / 2 < d1 then size - d1 else d1

/-- Maximum over axes of the per-axis wrapped distance (lines 259–268). -/
def chebDist {N : ℕ} (size : Fin N → ℕ) (x y : Idx N) : ℕ :=
  Finset.univ.sup fun d => chebAxis (size d) (x d) (y d)

/-- `this->m_Confidences[k] += this->m_Confidences[i]` (line 278): add a
merged confidence into position `j` of the accumulated list. -/
def addConfAt {N : ℕ} : List (ℚ × Idx N) → ℕ → ℚ → List (ℚ × Idx N)
  | [], _, _ => []
  | x :: xs, 0, c => (x.1 + c, x.2) :: xs
  | x :: xs, j + 1, c => x :: addConfAt xs j c

/-- The merge loop (lines 250–286) in accumulator form: `acc` holds the
candidates at positions `< i` of the in-place lists, `rest` those at
positions `≥ i`.  The head of `rest` is merged into the first accumulated
candidate within distance `m`, or else appended to the accumulator. -/
def mergeLoop {N : ℕ} (m : ℕ) (size : Fin N → ℕ) :
    List (ℚ × Idx N) → List (ℚ × Idx N) → List (ℚ × Idx N)
  | acc, [] => acc
  | acc, c :: rest =>
    match List.findIdx? (fun k => decide (chebDist size c.2 k.2 ≤ m)) acc with
    | some j => mergeLoop m size (addConfAt acc j c.1) rest
    | none => mergeLoop m size (acc ++ [c]) rest

/-- The peak merger over the zipped candidate list: the loop starts with
`i = 1`, so the first candidate seeds the accumulator. -/
def mergeStage {N : ℕ} (m : ℕ) (size : Fin N → ℕ) (pairs : List (ℚ × Idx N)) :
    List (ℚ × Idx N) :=
  mergeLoop m size (pairs.take 1) (pairs.drop 1)

/-- The re-sort after merging (lines 288–308): `std::sort` with comparator
`confidences[a] > confidences[b]`, i.e. any permutation sorted by
descending confidence; modelled by a merge sort with the matching
non-strict comparator. -/
def resortPairs {N : ℕ} (pairs : List (ℚ × Idx N)) : List (ℚ × Idx N) :=
  pairs.mergeSort fun a b => decide (b.1 ≤ a.1)

/-- Final truncation (lines 311–319): when more candidates survive than
requested, the lists are resized to the requested count; otherwise the
requested output count shrinks to the surviving count and the lists are
unchanged. -/
def truncateToRequested {N : ℕ} (requested : ℕ) (pairs : List (ℚ × Idx N)) :
    List (ℚ × Idx N) :=
  if pairs.length < requested then pairs else pairs.take requested

/-- Composition of cut, (conditional) merge+re-sort, and truncation, from
the extractor output to the candidate list that the interpolation and
offset-resolution loop iterates over. -/
def candidatePipeline {N : ℕ} (m : ℕ) (size : Fin N → ℕ) (requested : ℕ)
    (confs : List ℚ) (inds : List (Idx N)) : List ℚ × List (Idx N) :=
  let cut := zeroCut confs inds
  let pairs := cut.1.zip cut.2
  let merged := if 0 < m then resortPairs (mergeStage m size pairs) else pairs
  let kept := truncateToRequested requested merged
  (kept.map Prod.fst, kept.map Prod.snd)

/-- Number of candidates surviving the cut and the (conditional) merge,
before truncation. -/
def survivorCount {N : ℕ} (m : ℕ) (size : Fin N → ℕ)
    (confs : List ℚ) (inds : List (Idx N)) : ℕ :=
  let cut := zeroCut confs inds
  let pairs := cut.1.zip cut.2
  (if 0 < m then mergeStage m size pairs else pairs).length

/-! ## Sub-pixel interpolation (lines 323–373, Parabolic branch) -/

/-- `wholeImage.IsInside(tempIndex)` (lines 336 and 343). -/
def inBounds {N : ℕ} (oIndex : Idx N) (size : Fin N → ℕ) (ind : Idx N) : Prop :=
  ∀ d, oIndex d ≤ ind d ∧ ind d < oIndex d + size d

instance {N : ℕ} (oIndex : Idx N) (size : Fin N → ℕ) (ind : Idx N) :
    Decidable (inBounds oIndex size ind) := by
  unfold inBounds; infer_instance

/-- `tempIndex[i] = maxIndex[i] ∓ 1` (lines 335 and 342): the integer peak
index with one axis displaced. -/
def updAxis {N : ℕ} (ind : Idx N) (i : Fin N) (v : ℤ) : Idx N :=
  fun j => if j = i then v else ind j

/-- The Parabolic per-axis correction `(y0 - y2) / (2*(y0 - 2*y1 + y2))`
(line 355). -/
def parabolicAxisOffset (y0 y1 y2 : ℚ) : ℚ := (y0 - y2) / (2 * (y0 - 2 * y1 + y2))

/-- One axis of the peak refinement (lines 333–372, Parabolic branch):
`y0`/`y2` are read from the adjusted surface at the axis-displaced
indices; `y1` is the value passed in by the caller.  The code passes the
candidate's confidence `this->m_Confidences[m]` (line 330).  When either
neighbor is out of bounds the axis keeps its unrefined integer index. -/
def interpAxis {N : ℕ} (img : Image N) (oIndex : Idx N) (size : Fin N → ℕ)
    (y1 : ℚ) (ind : Idx N) (i : Fin N) : ℚ :=
  let lo := updAxis ind i (ind i - 1)
  let hi := updAxis ind i (ind i + 1)
  if inBounds oIndex size lo ∧ inBounds oIndex size hi then
    (ind i : ℚ) + parabolicAxisOffset (img lo) y1 (img hi)
  else (ind i : ℚ)

/-- The whole per-candidate refinement as in the code: each axis treated
independently on the original integer index, with the candidate's
confidence `conf` as the center value `y1`. -/
def interpCandidate {N : ℕ} (img : Image N) (oIndex : Idx N) (size : Fin N → ℕ)
    (conf : ℚ) (ind : Idx N) : Fin N → ℚ :=
  fun i => interpAxis img oIndex size conf ind i

/-- Formalisation of the specification's wording, kept only for comparison
with `interpCandidate`: the spec says `y1` is read from the adjusted
surface at the peak's grid index. -/
def interpCandidateSpec {N : ℕ} (img : Image N) (oIndex : Idx N) (size : Fin N → ℕ)
    (ind : Idx N) : Fin N → ℚ :=
  fun i => interpAxis img oIndex size (img ind) ind i

/-- A concrete 1-D adjusted surface with values 1, 5, 2 at indices 0, 1, 2,
used to separate the two `y1` conventions. -/
def cexSurface : Image 1 := fun ind => if ind 0 = 0 then 1 else if ind 0 = 1 then 5 else 2

/-! ## Offset resolver (lines 375–388) -/

/-- One axis of the direct/mirror offset resolution:
`directOffset = (movingOrigin[i] - fixedOrigin[i]) - spacing[i]*(maxIndex[i] - oIndex[i])`,
`mirrorOffset = (movingOrigin[i] - fixedOrigin[i]) - spacing[i]*(maxIndex[i] - adjustedSize[i])`,
choosing `directOffset` when `|directOffset| <= |mirrorOffset|`. -/
def resolveAxis (originDiff spacing oIndex adjSize maxI : ℚ) : ℚ :=
  let directOffset := originDiff - spacing * (maxI - oIndex)
  let mirrorOffset := originDiff - spacing * (maxI - adjSize)
  if |directOffset| ≤ |mirrorOffset| then directOffset else mirrorOffset

/-! ## The whole `ComputeOffset` call -/

/-- Modelled from the spec: the estimator's offset list before any
computation is attempted holds a single all-zero Offset Vector (the
superclass `PhaseCorrelationOptimizer`, which owns `m_Offsets` and its
initialization, is not part of the given sources; §7 of the spec states
the no-input result is "an all-zero single offset"). -/
def initialOffsets (N : ℕ) : List (Fin N → ℚ) := [fun _ => 0]

/-- `ComputeOffset` (lines 64–397) from the early-exit check onward, over
the ℚ-valued stage models.  The bias construction (ℝ-valued, verified
separately via `biasStage`) is abstracted as `adjustBias`, and the
external peak extractor (`m_MaxCalculator`, an external collaborator) as
`extractor`.  The boolean output records whether any computation was
performed (surface built, extractor invoked); on a missing input the code
returns at once (lines 73–76) leaving the offsets untouched. -/
def computeOffsetTop {N : ℕ} (adjustBias : Image N → Image N)
    (extractor : Image N → ℕ → List ℚ × List (Idx N)) (mergePeaks : ℕ)
    (zeroSuppression : ℚ) (interpolate : Bool) (size : Fin N → ℕ) (oIndex : Idx N)
    (originDiff spacing : Fin N → ℚ) (adjSize : Fin N → ℤ) (requested : ℕ)
    (input : Option (Image N)) : List (Fin N → ℚ) × Bool :=
  match input with
  | none => (initialOffsets N, false)
  | some inp =>
    let iAdjusted := zeroSuppressStage zeroSuppression size oIndex (adjustBias inp)
    let k := requestedMaxima mergePeaks requested N
    let ex := extractor iAdjusted k
    let pl := candidatePipeline mergePeaks size requested ex.1 ex.2
    let offs := (pl.1.zip pl.2).map fun ci => fun i =>
      resolveAxis (originDiff i) (spacing i) ((oIndex i : ℚ)) ((adjSize i : ℚ))
        (if interpolate then interpCandidate iAdjusted oIndex size ci.1 ci.2 i
         else (ci.2 i : ℚ))
    (offs, true)

/-! ## Helper lemmas -/

/-- Every element of the prefix before the first match of `p` fails `p`. -/
theorem findIdx_take_false {α : Type} (p : α → Bool) :
    ∀ (l : List α), ∀ x ∈ l.take (l.findIdx p), p x = false := by
  intro l
  induction l with
  | nil => intro x hx; simp at hx
  | cons a l ih =>
    intro x hx
    rw [List.findIdx_cons] at hx
    cases hpa : p a with
    | true => simp [hpa] at hx
    | false =>
      rw [hpa, cond_false, List.take_succ_cons] at hx
      rcases List.mem_cons.mp hx with h1 | h2
      · subst h1; exact hpa
      · exact ih x h2

/-- Every confidence surviving the cut is nonnegative. -/
theorem zeroCut_fst_nonneg {N : ℕ} (confs : List ℚ) (inds : List (Idx N)) :
    ∀ c ∈ (zeroCut confs inds).1, 0 ≤ c := by
  intro c hc
  unfold zeroCut at hc
  by_cases hlt : confs.findIdx (fun c => decide (c < 0)) < confs.length
  · rw [if_pos hlt] at hc
    have := findIdx_take_false (fun c => decide (c < 0)) confs c hc
    simpa using this
  · rw [if_neg hlt] at hc
    have heq : confs.take (confs.findIdx fun c => decide (c < 0)) = confs :=
      List.take_of_length_le (le_of_not_lt hlt)
    have hc2 : c ∈ confs.take (confs.findIdx fun c => decide (c < 0)) := by
      rw [heq]; exact hc
    have := findIdx_take_false (fun c => decide (c < 0)) confs c hc2
    simpa using this

/-- The cut preserves descending sortedness. -/
theorem zeroCut_fst_sorted {N : ℕ} (confs : List ℚ) (inds : List (Idx N))
    (hs : confs.Sorted (· ≥ ·)) : (zeroCut confs inds).1.Sorted (· ≥ ·) := by
  simp only [zeroCut]
  split
  · exact List.Pairwise.sublist (List.take_sublist _ _) hs
  · exact hs

/-- Adding a nonnegative confidence into a nonnegative list keeps all
confidences nonnegative. -/
theorem addConfAt_fst_nonneg {N : ℕ} (c : ℚ) (hc : 0 ≤ c) :
    ∀ (acc : List (ℚ × Idx N)) (j : ℕ), (∀ x ∈ acc, 0 ≤ x.1) →
      ∀ x ∈ addConfAt acc j c, 0 ≤ x.1 := by
  intro acc
  induction acc with
  | nil => intro j h x hx; simp [addConfAt] at hx
  | cons a l ih =>
    intro j h x hx
    cases j with
    | zero =>
      simp only [addConfAt] at hx
      rcases List.mem_cons.mp hx with h1 | h2
      · subst h1; exact add_nonneg (h a (List.mem_cons_self a l)) hc
      · exact h x (List.mem_cons_of_mem a h2)
    | succ j =>
      simp only [addConfAt] at hx
      rcases List.mem_cons.mp hx with h1 | h2
      · rw [h1]; exact h a (List.mem_cons_self a l)
      · exact ih j (fun y hy => h y (List.mem_cons_of_mem a hy)) x h2

/-- The merge loop preserves nonnegativity of all confidences. -/
theorem mergeLoop_fst_nonneg {N : ℕ} (m : ℕ) (size : Fin N → ℕ) :
    ∀ (rest acc : List (ℚ × Idx N)), (∀ x ∈ acc, 0 ≤ x.1) → (∀ x ∈ rest, 0 ≤ x.1) →
      ∀ x ∈ mergeLoop m size acc rest, 0 ≤ x.1 := by
  intro rest
  induction rest with
  | nil => intro acc ha _ x hx; rw [mergeLoop] at hx; exact ha x hx
  | cons c cs ih =>
    intro acc ha hr x hx
    cases hfind : List.findIdx? (fun k => decide (chebDist size c.2 k.2 ≤ m)) acc with
    | some j =>
      rw [mergeLoop, hfind] at hx
      exact ih (addConfAt acc j c.1)
        (addConfAt_fst_nonneg c.1 (hr c (List.mem_cons_self c cs)) acc j ha)
        (fun y hy => hr y (List.mem_cons_of_mem c hy)) x hx
    | none =>
      rw [mergeLoop, hfind] at hx
      refine ih (acc ++ [c]) ?_ (fun y hy => hr y (List.mem_cons_of_mem c hy)) x hx
      intro y hy
      rcases List.mem_append.mp hy with h1 | h2
      · exact ha y h1
      · rw [List.mem_singleton.mp h2]; exact hr c (List.mem_cons_self c cs)

/-- The merge stage preserves nonnegativity of all confidences. -/
theorem mergeStage_fst_nonneg {N : ℕ} (m : ℕ) (size : Fin N → ℕ)
    (pairs : List (ℚ × Idx N)) (h : ∀ x ∈ pairs, 0 ≤ x.1) :
    ∀ x ∈ mergeStage m size pairs, 0 ≤ x.1 :=
  mergeLoop_fst_nonneg m size (pairs.drop 1) (pairs.take 1)
    (fun y hy => h y (List.mem_of_mem_take hy))
    (fun y hy => h y (List.mem_of_mem_drop hy))

/-- The re-sort produces a list of descending confidences. -/
theorem resortPairs_map_fst_sorted {N : ℕ} (pairs : List (ℚ × Idx N)) :
    ((resortPairs pairs).map Prod.fst).Sorted (· ≥ ·) := by
  have hp := @List.sorted_mergeSort (ℚ × Idx N) (fun a b => decide (b.1 ≤ a.1))
    (by intro a b c hab hbc; simp at hab hbc ⊢; exact le_trans hbc hab)
    (by intro a b; simpa using le_total b.1 a.1) pairs
  refine List.Pairwise.map Prod.fst ?_ hp
  intro a b hab
  simpa using hab

/-- First components of a zip form a prefix of the first list. -/
theorem map_fst_zip_take {α β : Type} :
    ∀ (l1 : List α) (l2 : List β), (l1.zip l2).map Prod.fst = l1.take l2.length
  | [], _ => by simp
  | _ :: _, [] => by simp
  | a :: l1, b :: l2 => by
    simp only [List.zip_cons_cons, List.map_cons, List.length_cons, List.take_succ_cons]
    rw [map_fst_zip_take l1 l2]

/-- The truncation keeps a sublist. -/
theorem truncate_sublist {N : ℕ} (r : ℕ) (p : List (ℚ × Idx N)) :
    (truncateToRequested r p).Sublist p := by
  unfold truncateToRequested
  split
  · exact List.Sublist.refl _
  · exact List.take_sublist _ _

/-- Length of the truncation. -/
theorem length_truncateToRequested {N : ℕ} (r : ℕ) (p : List (ℚ × Idx N)) :
    (truncateToRequested r p).length = min r p.length := by
  unfold truncateToRequested
  split
  · simp; omega
  · simp [List.length_take]

/-! ## Claim theorems -/

/-- C1: with merging enabled (merge threshold 1) and a requested offset
count of 1 in dimension 2, the code requests `floor(1/2) * (3^2 - 1) = 0`
maxima from the peak extractor — not the strictly positive
`ceil(1/2) * (3^2 - 1) = 8` the specification states: `std::ceil` is
applied only after the integer division `m_Offsets.size() / 2` has
already rounded down. -/
theorem requestedMaxima_merge_odd_one : requestedMaxima 1 1 2 = 0 := by
  decide

/-- C2 counterexample: with tolerance 1 and squared distance 50, the claim
(threshold `10·tolerance² = 10`) demands a hard zero, but the code's
threshold is `100·tolerance² = 100`, so the sample is the (nonzero)
exponential damping of the input instead. -/
theorem hardZero_threshold_cex :
    0 < (1 : ℕ) ∧ 10 * ((1 : ℕ) : ℤ) * ((1 : ℕ) : ℤ) < (50 : ℤ) ∧
      biasSample 1 (distancePenaltyFactor 1 0) 1 50 ≠ 0 := by
  refine ⟨by decide, by decide, ?_⟩
  rw [biasSample, if_neg (by decide), one_mul]
  exact Real.exp_ne_zero _

/-- C2 (amended): the hard-zero guard fires exactly when the tolerance is
positive and the squared distance exceeds `100·tolerance²` (that is,
`(10·tolerance)²`); otherwise the exponential damping is applied. -/
theorem hardZero_threshold (tol : ℕ) (f pixel : ℝ) (dist2 : ℤ) :
    (0 < tol ∧ 100 * (tol : ℤ) * (tol : ℤ) < dist2 → biasSample tol f pixel dist2 = 0) ∧
    (¬(0 < tol ∧ 100 * (tol : ℤ) * (tol : ℤ) < dist2) →
      biasSample tol f pixel dist2 = pixel * Real.exp (f * (dist2 : ℝ))) := by
  constructor
  · intro h
    rw [biasSample, if_pos ⟨h.1, by rw [zeroDist2]; exact h.2⟩]
  · intro h
    rw [biasSample, if_neg (by rw [zeroDist2]; exact h)]

/-- Witness for C2's amended theorem: tolerance 1, squared distance 101
(beyond the code threshold 100) hard-zeroes the sample. -/
theorem hardZero_threshold_witness : biasSample 1 0 5 101 = 0 :=
  (hardZero_threshold 1 0 5 101).1 (by constructor <;> decide)

/-- C3 counterexample: on the descending confidence list `[1, 0, -1]` the
cut keeps `[1, 0]` — the resize happens at the first strictly negative
value, not at the first value `≤ 0` — so a zero confidence survives and
the result is not strictly positive throughout. -/
theorem zeroCut_keeps_zero_cex :
    (zeroCut [1, 0, -1] ([![0], ![1], ![2]] : List (Idx 1))).1 = [1, 0] ∧
      ¬ ∀ c ∈ (zeroCut [1, 0, -1] ([![0], ![1], ![2]] : List (Idx 1))).1, 0 < c := by
  decide

/-- C3 (amended): the selector drops every candidate from the first
strictly negative confidence onward, so given the extractor's descending
input, after the cut — and in the final candidate list after merging,
re-sorting and truncation — every confidence is nonnegative (not
necessarily strictly positive) and the list is sorted descending. -/
theorem selector_nonneg_sorted {N : ℕ} (m : ℕ) (size : Fin N → ℕ) (requested : ℕ)
    (confs : List ℚ) (inds : List (Idx N)) (hs : confs.Sorted (· ≥ ·)) :
    ((zeroCut confs inds).1.Sorted (· ≥ ·) ∧ ∀ c ∈ (zeroCut confs inds).1, 0 ≤ c) ∧
    ((candidatePipeline m size requested confs inds).1.Sorted (· ≥ ·) ∧
      ∀ c ∈ (candidatePipeline m size requested confs inds).1, 0 ≤ c) := by
  refine ⟨⟨zeroCut_fst_sorted confs inds hs, zeroCut_fst_nonneg confs inds⟩, ?_⟩
  have hpairs_nonneg : ∀ x ∈ (zeroCut confs inds).1.zip (zeroCut confs inds).2, 0 ≤ x.1 := by
    intro x hx
    exact zeroCut_fst_nonneg confs inds x.1 (List.of_mem_zip hx).1
  unfold candidatePipeline
  simp only []
  by_cases hm : 0 < m
  · rw [if_pos hm]
    set merged := resortPairs (mergeStage m size ((zeroCut confs inds).1.zip (zeroCut confs inds).2)) with hmerged
    have hsub : ((truncateToRequested requested merged).map Prod.fst).Sublist (merged.map Prod.fst) :=
      List.Sublist.map Prod.fst (truncate_sublist requested merged)
    constructor
    · exact List.Pairwise.sublist hsub (resortPairs_map_fst_sorted _)
    · intro c hc
      have hc2 : c ∈ merged.map Prod.fst := hsub.mem hc
      rcases List.mem_map.mp hc2 with ⟨x, hx, hfst⟩
      have hx2 : x ∈ mergeStage m size ((zeroCut confs inds).1.zip (zeroCut confs inds).2) := by
        rw [hmerged] at hx
        exact List.mem_mergeSort.mp hx
      rw [← hfst]
      exact mergeStage_fst_nonneg m size _ hpairs_nonneg x hx2
  · rw [if_neg hm]
    set pairs := (zeroCut confs inds).1.zip (zeroCut confs inds).2 with hpairs
    have hsub : ((truncateToRequested requested pairs).map Prod.fst).Sublist (pairs.map Prod.fst) :=
      List.Sublist.map Prod.fst (truncate_sublist requested pairs)
    have hmapfst : pairs.map Prod.fst = (zeroCut confs inds).1.take (zeroCut confs inds).2.length :=
      map_fst_zip_take _ _
    constructor
    · refine List.Pairwise.sublist hsub ?_
      rw [hmapfst]
      exact List.Pairwise.sublist (List.take_sublist _ _) (zeroCut_fst_sorted confs inds hs)
    · intro c hc
      have hc2 : c ∈ pairs.map Prod.fst := hsub.mem hc
      rw [hmapfst] at hc2
      exact zeroCut_fst_nonneg confs inds c (List.mem_of_mem_take hc2)

/-- Witness for C3's amended theorem at the descending input `[2, 0, -1]`
with merging enabled. -/
theorem selector_nonneg_sorted_witness :
    ((zeroCut [2, 0, -1] ([![0], ![4], ![8]] : List (Idx 1))).1.Sorted (· ≥ ·) ∧
      ∀ c ∈ (zeroCut [2, 0, -1] ([![0], ![4], ![8]] : List (Idx 1))).1, 0 ≤ c) ∧
    ((candidatePipeline 1 ![10] 2 [2, 0, -1] ([![0], ![4], ![8]] : List (Idx 1))).1.Sorted (· ≥ ·) ∧
      ∀ c ∈ (candidatePipeline 1 ![10] 2 [2, 0, -1] ([![0], ![4], ![8]] : List (Idx 1))).1, 0 ≤ c) :=
  selector_nonneg_sorted 1 ![10] 2 [2, 0, -1] ([![0], ![4], ![8]] : List (Idx 1)) (by decide)

/-- C4 counterexample: on `cexSurface` (values 1, 5, 2 at indices 0, 1, 2)
with candidate index 1 and merged confidence 9 ≠ 5, the code's refinement
(`y1` = the candidate's confidence, line 330) differs from the claim's
(`y1` = the surface value at the peak index): `1 + 1/30` versus `1 + 1/14`. -/
theorem interp_y1_cex :
    interpCandidate cexSurface ![0] ![3] 9 ![1] 0 ≠
      interpCandidateSpec cexSurface ![0] ![3] ![1] 0 := by
  have hlo : updAxis (![1] : Idx 1) 0 ((![1] : Idx 1) 0 - 1) = ![0] := by
    funext j
    fin_cases j
    simp [updAxis]
  have hhi : updAxis (![1] : Idx 1) 0 ((![1] : Idx 1) 0 + 1) = ![2] := by
    funext j
    fin_cases j
    simp [updAxis]
  have hb : inBounds (![0] : Idx 1) ![3] ![0] ∧ inBounds (![0] : Idx 1) ![3] ![2] := by
    constructor <;> (intro d; fin_cases d <;> simp)
  simp only [interpCandidate, interpCandidateSpec, interpAxis, hlo, hhi]
  rw [if_pos hb, if_pos hb]
  have h0 : cexSurface ![0] = 1 := by simp [cexSurface]
  have h1 : cexSurface ![1] = 5 := by simp [cexSurface]
  have h2 : cexSurface ![2] = 2 := by simp [cexSurface]
  rw [h0, h1, h2]
  norm_num [parabolicAxisOffset]

/-- C4 (amended): the interpolator's center value `y1` is the candidate's
confidence; this coincides with the claimed surface value at the peak
index exactly when the two agree — in particular whenever the candidate
was not merged with any other peak, since then its confidence is the
extractor's maximum, i.e. the adjusted-surface value at that index. -/
theorem interp_y1_from_confidence {N : ℕ} (img : Image N) (oIndex : Idx N)
    (size : Fin N → ℕ) (conf : ℚ) (ind : Idx N) (h : conf = img ind) :
    interpCandidate img oIndex size conf ind = interpCandidateSpec img oIndex size ind := by
  subst h; rfl

/-- Witness for C4's amended theorem: an unmerged candidate, whose
confidence equals the surface value 5 at its index. -/
theorem interp_y1_from_confidence_witness :
    interpCandidate cexSurface ![0] ![3] (cexSurface ![1]) ![1] =
      interpCandidateSpec cexSurface ![0] ![3] ![1] :=
  interp_y1_from_confidence cexSurface ![0] ![3] (cexSurface ![1]) ![1] rfl

/-- C5 counterexample: with extractor output `[1, 0]` (a zero confidence),
merging disabled and 2 offsets requested, the pipeline returns 2
candidates, but `min(requested, positive-confidence count) = min(2,1) = 1`:
zero confidences survive the cut, so the claimed count formula fails. -/
theorem pipeline_count_cex :
    (candidatePipeline 0 ![10] 2 [1, 0] ([![0], ![5]] : List (Idx 1))).1.length ≠
      min 2 ((zeroCut [1, 0] ([![0], ![5]] : List (Idx 1))).1.countP fun c => decide (0 < c)) := by
  decide

/-- C5 (amended): the number of returned candidates (offset vectors) never
exceeds the requested count and equals `min(requested count, number of
nonnegative-confidence candidates surviving the cut and the merge)`, and
the confidence list always has the same length as the offset list. -/
theorem pipeline_count {N : ℕ} (m : ℕ) (size : Fin N → ℕ) (requested : ℕ)
    (confs : List ℚ) (inds : List (Idx N)) :
    (candidatePipeline m size requested confs inds).1.length =
        min requested (survivorCount m size confs inds) ∧
    (candidatePipeline m size requested confs inds).1.length =
        (candidatePipeline m size requested confs inds).2.length ∧
    (candidatePipeline m size requested confs inds).1.length ≤ requested := by
  unfold candidatePipeline survivorCount
  refine ⟨?_, by simp, ?_⟩
  · simp only [List.length_map, length_truncateToRequested]
    split
    · simp [resortPairs, List.length_mergeSort]
    · rfl
  · simp only [List.length_map, length_truncateToRequested]
    omega

/-- C6: when no correlation surface is supplied the estimator returns the
single all-zero offset vector untouched and performs no computation: the
result does not depend on the bias builder, the suppression setting or
the peak extractor (all universally quantified), and the
computation-performed flag is `false`. -/
theorem computeOffset_no_input {N : ℕ} (adjustBias : Image N → Image N)
    (extractor : Image N → ℕ → List ℚ × List (Idx N)) (mergePeaks : ℕ)
    (zeroSuppression : ℚ) (interpolate : Bool) (size : Fin N → ℕ) (oIndex : Idx N)
    (originDiff spacing : Fin N → ℚ) (adjSize : Fin N → ℤ) (requested : ℕ) :
    computeOffsetTop adjustBias extractor mergePeaks zeroSuppression interpolate size
        oIndex originDiff spacing adjSize requested none =
      ([fun _ => (0 : ℚ)], false) := rfl

/-- C7 counterexample: direct expected index (0,0), mirror (3,1), sample
index (1,0), tolerance 0 and `imageSize2 = 10` (factor −1): the code's
exponent uses the SUM over axes of the per-axis minima (`d² = 1`), not
the spec's minimum over axes (`d² = 0`), so the output `exp(-1)` differs
from the claimed `1·exp(0) = 1`. -/
theorem bias_formula_cex :
    biasStage 0 (distancePenaltyFactor 0 (imageSize2 ![3, 1])) ![0, 0] ![3, 1]
        (fun _ => 1) ![1, 0] ≠
      (fun _ => (1 : ℝ)) ![1, 0] *
        Real.exp (distancePenaltyFactor 0 (imageSize2 ![3, 1]) *
          ((biasDist2SpecMin ![0, 0] ![3, 1] ![1, 0] : ℤ) : ℝ)) := by
  have hf : distancePenaltyFactor 0 (imageSize2 ![(3 : ℤ), 1]) = -1 := by
    have h10 : imageSize2 ![(3 : ℤ), 1] = 10 := by decide
    rw [distancePenaltyFactor, if_pos rfl, h10]
    norm_num
  have hd : biasDist2 ![(0 : ℤ), 0] ![3, 1] ![1, 0] = 1 := by decide
  have hs : biasDist2SpecMin ![(0 : ℤ), 0] ![3, 1] ![1, 0] = 0 := by decide
  simp only [biasStage, biasSample, hd, hs, hf]
  rw [if_neg (by decide)]
  norm_num [Real.exp_eq_one_iff]

/-- C7 (amended): every sample not hit by the hard-zero guard equals the
input sample times `exp(distancePenaltyFactor * d²)`, where `d²` is the
SUM over axes of the per-axis squared distance to the closer of the
direct and mirror expected indices, and `distancePenaltyFactor` is
`-10 / (Σ gridExtent²)` for tolerance 0 and `ln(0.9) / tolerance²`
otherwise. -/
theorem bias_formula {N : ℕ} (tol : ℕ) (adjSize : Fin N → ℤ) (direct mirror : Idx N)
    (input : Idx N → ℝ) (ind : Idx N)
    (h : ¬(0 < tol ∧ zeroDist2 tol < biasDist2 direct mirror ind)) :
    biasStage tol (distancePenaltyFactor tol (imageSize2 adjSize)) direct mirror input ind =
      input ind *
        Real.exp ((if tol = 0 then (-10 : ℝ) / ((imageSize2 adjSize : ℤ) : ℝ)
            else Real.log (9 / 10) / ((tol : ℝ) * (tol : ℝ))) *
          ((biasDist2 direct mirror ind : ℤ) : ℝ)) := by
  simp only [biasStage, biasSample, if_neg h, distancePenaltyFactor]

/-- Witness for C7's amended theorem at tolerance 0 (the guard never
fires), the geometry of the counterexample. -/
theorem bias_formula_witness :
    ¬(0 < 0 ∧ zeroDist2 0 < biasDist2 ![(0 : ℤ), 0] ![3, 1] ![1, 0]) ∧
    biasStage 0 (distancePenaltyFactor 0 (imageSize2 ![3, 1])) ![0, 0] ![3, 1]
        (fun _ => 1) ![1, 0] =
      (fun _ => (1 : ℝ)) ![1, 0] *
        Real.exp ((if (0 : ℕ) = 0 then (-10 : ℝ) / ((imageSize2 ![(3 : ℤ), 1] : ℤ) : ℝ)
            else Real.log (9 / 10) / (((0 : ℕ) : ℝ) * ((0 : ℕ) : ℝ))) *
          ((biasDist2 ![(0 : ℤ), 0] ![3, 1] ![1, 0] : ℤ) : ℝ)) :=
  ⟨by decide, bias_formula 0 ![3, 1] ![0, 0] ![3, 1] (fun _ => 1) ![1, 0] (by decide)⟩

/-- C8: with aggressiveness 0 the suppression stage is the identity on the
adjusted surface; with aggressiveness `a > 0` exactly the samples within
wraparound city-block distance `< 4` of the zero index, or with some
coordinate equal to that axis's zero value, are multiplied by
`(d+10)/(a+d+10)`, every other sample being left unchanged. -/
theorem zeroSuppress_characterization {N : ℕ} (a : ℚ) (size : Fin N → ℕ)
    (oIndex : Idx N) (img : Image N) :
    (a = 0 → zeroSuppressStage a size oIndex img = img) ∧
    (0 < a → ∀ ind : Idx N,
      zeroSuppressStage a size oIndex img ind =
        if cityBlockZeroDist size oIndex ind < 4 ∨ ∃ d, ind d = oIndex d then
          img ind * (((cityBlockZeroDist size oIndex ind : ℚ) + 10) /
            (a + (cityBlockZeroDist size oIndex ind : ℚ) + 10))
        else img ind) := by
  constructor
  · intro ha
    subst ha
    simp [zeroSuppressStage]
  · intro ha ind
    simp only [zeroSuppressStage, if_pos ha]
    by_cases h : cityBlockZeroDist size oIndex ind < 4 ∨ ∃ d, ind d = oIndex d
    · simp [zeroSuppressSample, zeroPixelValid, h]
    · simp [zeroSuppressSample, zeroPixelValid, h]

/-- Witness for C8: the identity at aggressiveness 0, and the damping
formula at aggressiveness 5 on a 1-D surface of extent 5 at the zero
index itself. -/
theorem zeroSuppress_characterization_witness :
    (zeroSuppressStage 0 ![5] ![0] (fun _ => 3) = fun _ => 3) ∧
    zeroSuppressStage 5 ![5] ![0] (fun _ => 3) ![0] =
      (if cityBlockZeroDist ![5] ![0] ![0] < 4 ∨ ∃ d : Fin 1, (![0] : Idx 1) d = (![0] : Idx 1) d then
        (3 : ℚ) * (((cityBlockZeroDist ![5] ![0] ![0] : ℚ) + 10) /
          (5 + (cityBlockZeroDist ![5] ![0] ![0] : ℚ) + 10))
      else 3) :=
  ⟨(zeroSuppress_characterization 0 ![5] ![0] (fun _ => 3)).1 rfl,
   (zeroSuppress_characterization 5 ![5] ![0] (fun _ => 3)).2 (by decide) ![0]⟩

/-- C10: whenever the direct and mirror candidate physical offsets have
equal absolute value on an axis, the offset resolver picks the direct
offset, the one computed against the grid origin `oIndex`. -/
theorem resolveAxis_tie_prefers_direct (originDiff spacing oIndex adjSize maxI : ℚ)
    (h : |originDiff - spacing * (maxI - oIndex)| = |originDiff - spacing * (maxI - adjSize)|) :
    resolveAxis originDiff spacing oIndex adjSize maxI =
      originDiff - spacing * (maxI - oIndex) := by
  unfold resolveAxis
  simp only [h.le, if_true]

/-- Witness for C10 at a concrete tie: origin difference 0, spacing 1,
grid origin 0, grid extent 4, index 2 gives direct offset −2 and mirror
offset 2, of equal absolute value; the resolver returns −2 (the direct one). -/
theorem resolveAxis_tie_prefers_direct_witness :
    resolveAxis 0 1 0 4 2 = (0 : ℚ) - 1 * (2 - 0) :=
  resolveAxis_tie_prefers_direct 0 1 0 4 2 (by norm_num)

end ITKMontage
